import Mathlib

/-!
Shallow embedding of the message-threading / edit-audit / notification core
of the repository (directory Django-signals_orm-0x04/messaging): the models
(models.py), the signal handlers (signals.py), the custom manager
(managers.py) and the view-level operations (views.py).

Records are Lean structures, the database is a `State` of lists of rows,
and each operation is a pure function from state to state (or to
`Except Err State` for operations that can fail).  Auto-increment primary
keys and the auto_now_add clock are modelled by a single counter
`State.nextId`, so later rows always carry strictly larger ids and
timestamps, exactly as the backing database produces them.
-/

namespace Messaging

/-- A row of django.contrib.auth.models.User (only the fields the
messaging app reads: the primary key and the username). -/
structure User where
  id : Nat
  username : String
deriving Repr, DecidableEq

/-- A row of models.Message: sender / receiver (user foreign keys), content,
timestamp (auto_now_add), edited and read flags (default False), and the
optional self foreign key parent_message used for threading. -/
structure Msg where
  id : Nat
  sender : Nat
  receiver : Nat
  content : String
  timestamp : Nat
  edited : Bool
  read : Bool
  parent_message : Option Nat
deriving Repr, DecidableEq

/-- A row of models.Notification: target user, optional triggering message,
notification_type (one of the literals "message", "reply", "edit" from
NOTIFICATION_TYPES; the spec calls the first kind new-message), content,
timestamp and a read flag (default False). -/
structure Notif where
  id : Nat
  user : Nat
  message : Option Nat
  notification_type : String
  content : String
  timestamp : Nat
  read : Bool
deriving Repr, DecidableEq

/-- A row of models.MessageHistory (the audit trail): the edited message,
the superseded body, the edit timestamp and the editing user. -/
structure Hist where
  id : Nat
  message : Nat
  old_content : String
  edited_at : Nat
  edited_by : Nat
deriving Repr, DecidableEq

/-- The whole database: one table per model plus the auth user table and
the shared auto-increment / clock counter. -/
structure State where
  users : List User
  messages : List Msg
  notifications : List Notif
  history : List Hist
  nextId : Nat
deriving Repr, DecidableEq

/-- Message.objects.get(pk=mid) as a partial lookup. -/
def findMsg (s : State) (mid : Nat) : Option Msg :=
  s.messages.find? (fun m => m.id == mid)

/-- User.objects.get(id=uid) as a partial lookup. -/
def findUser (s : State) (uid : Nat) : Option User :=
  s.users.find? (fun u => u.id == uid)

/-- instance.sender.username: the username behind a user foreign key
(the empty string for a dangling id, which live states never contain). -/
def usernameOf (s : State) (uid : Nat) : String :=
  match findUser s uid with
  | some u => u.username
  | none => ""

/-- An UPDATE of the message row with primary key mid. -/
def updateMsg (ms : List Msg) (mid : Nat) (f : Msg → Msg) : List Msg :=
  ms.map (fun m => if m.id == mid then f m else m)

/-- signals.create_message_notification (post_save, created=True): builds
the single notification for the receiver, kind "reply" when the new
message has a parent and "message" otherwise, content derived from the
sender identity. -/
def create_message_notification (s : State) (m : Msg) : State :=
  let kindWord := if m.parent_message.isSome then "reply" else "message"
  { s with
    notifications :=
      { id := s.nextId
        user := m.receiver
        message := some m.id
        notification_type := kindWord
        content := "You have a new " ++ kindWord ++ " from " ++ usernameOf s m.sender
        timestamp := s.nextId
        read := false } :: s.notifications
    nextId := s.nextId + 1 }

/-- The INSERT performed by Message.objects.create in views.send_message,
followed by the post_save signal create_message_notification. -/
def doSend (s : State) (senderId receiverId : Nat) (content : String)
    (parent : Option Nat) : State :=
  let m : Msg :=
    { id := s.nextId
      sender := senderId
      receiver := receiverId
      content := content
      timestamp := s.nextId
      edited := false
      read := false
      parent_message := parent }
  create_message_notification
    { s with messages := m :: s.messages, nextId := s.nextId + 1 } m

/-- The caller-visible failures of the views: get_object_or_404 raises
Http404 (notFound), HttpResponseForbidden is forbidden, and the
receiver-and-content-required redirect of send_message is invalidInput. -/
inductive Err where
  | notFound
  | forbidden
  | invalidInput
deriving Repr, DecidableEq

/-- views.send_message (the POST branch): requires a content value, resolves
the receiver and, when given, the parent message with get_object_or_404,
then creates the message (the signal adds the notification). -/
def send_message (s : State) (senderId receiverId : Nat) (content : String)
    (parentId : Option Nat) : Except Err State :=
  if content = "" then .error .invalidInput
  else
    match findUser s receiverId with
    | none => .error .notFound
    | some receiver =>
      match parentId with
      | none => .ok (doSend s senderId receiver.id content none)
      | some pid =>
        match findMsg s pid with
        | none => .error .notFound
        | some parent => .ok (doSend s senderId receiver.id content (some parent.id))

/-- message.save() on an existing row whose content field was set to
newContent: first the pre_save signal signals.log_message_edit (fetch the
old row; when the content changed, set edited, append the MessageHistory
row with the old body and edited_by = instance.sender, and create the
"edit" notification for the receiver), then the UPDATE itself. -/
def saveMessage (s : State) (mid : Nat) (newContent : String) : State :=
  match findMsg s mid with
  | none => s
  | some old =>
    if old.content ≠ newContent then
      let s1 : State :=
        { s with
          history :=
            { id := s.nextId
              message := mid
              old_content := old.content
              edited_at := s.nextId
              edited_by := old.sender } :: s.history
          notifications :=
            { id := s.nextId + 1
              user := old.receiver
              message := some mid
              notification_type := "edit"
              content := usernameOf s old.sender ++ " edited their message"
              timestamp := s.nextId + 1
              read := false } :: s.notifications
          nextId := s.nextId + 2 }
      { s1 with
        messages := updateMsg s1.messages mid
          (fun m => { m with content := newContent, edited := true }) }
    else s

/-- views.edit_message: 404 when the message is absent, Forbidden when the
actor is not the sender; a POST with an empty content value performs no
save (the falsy check in the view), otherwise the content is set and
saved, the pre_save signal doing the audit work. -/
def edit_message (s : State) (actor mid : Nat) (newContent : String) :
    Except Err State :=
  match findMsg s mid with
  | none => .error .notFound
  | some m =>
    if m.sender ≠ actor then .error .forbidden
    else if newContent = "" then .ok s
    else .ok (saveMessage s mid newContent)

/-- The mark-as-read fragment of views.message_detail: 404 when the message
is absent, Forbidden when the actor is neither sender nor receiver, and
read is set exactly when the actor is the receiver and the row is still
unread (save with update_fields; the pre_save signal sees an unchanged
content and does nothing). -/
def mark_message_read (s : State) (actor mid : Nat) : Except Err State :=
  match findMsg s mid with
  | none => .error .notFound
  | some m =>
    if m.sender ≠ actor ∧ m.receiver ≠ actor then .error .forbidden
    else if m.receiver == actor && !m.read then
      .ok { s with
            messages := updateMsg s.messages mid (fun x => { x with read := true }) }
    else .ok s

/-- views.mark_notification_read: get_object_or_404(Notification,
id=notification_id, user=request.user) filters on owner and id together,
so a notification owned by someone else yields Http404; on success the
read flag is set and saved. -/
def mark_notification_read (s : State) (actor nid : Nat) : Except Err State :=
  match s.notifications.find? (fun n => n.id == nid && n.user == actor) with
  | none => .error .notFound
  | some _ =>
    .ok { s with
          notifications := s.notifications.map
            (fun n => if n.id == nid && n.user == actor then { n with read := true } else n) }

/-- Whether a message row is deleted by the cascade that a deletion of user
u sets off: it is deleted when u is its sender or receiver, or when its
parent is deleted (the self foreign key parent_message carries
on_delete=CASCADE, so replies follow their parent).  The fuel bounds the
length of the parent chain that is followed. -/
def msgDoomed (s : State) (u : Nat) : Nat → Msg → Bool
  | 0, m => m.sender == u || m.receiver == u
  | fuel + 1, m =>
    m.sender == u || m.receiver == u ||
      (match m.parent_message with
       | none => false
       | some pid =>
         match findMsg s pid with
         | none => false
         | some p => msgDoomed s u fuel p)

/-- The net effect of user.delete() in views.delete_user: the ORM CASCADE
over the user foreign keys plus the explicit cleanup of
signals.delete_user_related_data remove every message sent or received by
u together with the reply subtrees, notifications and history rows hanging
off those messages, every notification targeting u, and every history row
edited by u.  In live states every message id is below nextId, so nextId
steps of fuel cover any parent chain. -/
def delete_user (s : State) (u : Nat) : State :=
  { users := s.users.filter (fun x => x.id != u)
    messages := s.messages.filter (fun m => !msgDoomed s u s.nextId m)
    notifications := s.notifications.filter
      (fun n =>
        n.user != u &&
          (match n.message with
           | none => true
           | some mid =>
             match findMsg s mid with
             | none => true
             | some m => !msgDoomed s u s.nextId m))
    history := s.history.filter
      (fun h =>
        h.edited_by != u &&
          (match findMsg s h.message with
           | none => true
           | some m => !msgDoomed s u s.nextId m))
    nextId := s.nextId }

/-- managers.UnreadMessagesManager.unread_for_user: the messages whose
receiver is the given user and whose read flag is False (the only()
projection is a load optimisation and drops no row). -/
def unread_for_user (s : State) (u : Nat) : List Msg :=
  s.messages.filter (fun m => m.receiver == u && m.read == false)

/-- The Python exception the inbox view raises: the failed attribute
lookup is an AttributeError, not one of the handled view errors. -/
inductive PyErr where
  | attributeError
deriving Repr, DecidableEq

/-- The manager attributes the Message model class installs: objects and
unread_objects (models.py lines 38 and 39). -/
def messageManagerAttrs : List String := ["objects", "unread_objects"]

/-- Python attribute resolution of a manager name on the Message class:
some name when models.py installs a manager under it, none
(AttributeError) otherwise. -/
def messageManagerLookup (attr : String) : Option String :=
  if attr ∈ messageManagerAttrs then some attr else none

/-- views.inbox: line 76 evaluates Message.unread.unread_for_user(user)
before anything is rendered, and line 88 would report
unread_count = unread_messages.count().  The attribute access is modelled
explicitly: the view asks the Message class for a manager named "unread",
and only when that resolves does it return the accessor's rows together
with their count. -/
def inbox (s : State) (u : Nat) : Except PyErr (List Msg × Nat) :=
  match messageManagerLookup "unread" with
  | none => .error .attributeError
  | some _ =>
    let unread_messages := unread_for_user s u
    .ok (unread_messages, unread_messages.length)

/-- The ORDER BY of Message.Meta.ordering = [-timestamp]: newest first. -/
def tsGe (a b : Msg) : Prop := b.timestamp ≤ a.timestamp

instance : DecidableRel tsGe := fun a b => Nat.decLe b.timestamp a.timestamp

instance : IsTotal Msg tsGe := ⟨fun a b => Nat.le_total b.timestamp a.timestamp⟩

instance : IsTrans Msg tsGe := ⟨fun _ _ _ h1 h2 => Nat.le_trans h2 h1⟩

/-- A message of a queryset on which select_related resolved the sender and
receiver rows eagerly. -/
structure ResolvedMsg where
  msg : Msg
  senderUser : Option User
  receiverUser : Option User
deriving Repr, DecidableEq

/-- models.Message.get_thread: the queryset of the direct replies
(filter(parent_message=self)) under the model ordering -timestamp, each
row carrying its eagerly resolved sender and receiver (select_related). -/
def get_thread (s : State) (m : Msg) : List ResolvedMsg :=
  ((s.messages.filter (fun r => r.parent_message == some m.id)).insertionSort tsGe).map
    (fun r => ⟨r, findUser s r.sender, findUser s r.receiver⟩)

/-- The part of a healthy database state that concerns message rows: every
primary key is below the auto-increment counter, and a parent reference
points at an existing row that was created earlier (a parent must exist
before a reply to it can be created, and primary keys grow). -/
def MsgListWf (ms : List Msg) (bound : Nat) : Prop :=
  ∀ m ∈ ms, m.id < bound ∧
    ∀ pid, m.parent_message = some pid → pid < m.id ∧ ∃ p ∈ ms, p.id = pid

/-- MsgListWf for the message table of a state. -/
def MsgWf (s : State) : Prop :=
  MsgListWf s.messages s.nextId

/-- A healthy database state: MsgWf plus intact foreign keys on every
table (message sender and receiver, notification target and message,
history editor and message). -/
def StateWf (s : State) : Prop :=
  MsgWf s ∧
    (∀ m ∈ s.messages,
      (∃ v ∈ s.users, v.id = m.sender) ∧ ∃ v ∈ s.users, v.id = m.receiver) ∧
    (∀ n ∈ s.notifications,
      (∃ v ∈ s.users, v.id = n.user) ∧
        ∀ mid, n.message = some mid → ∃ m ∈ s.messages, m.id = mid) ∧
    (∀ h ∈ s.history,
      (∃ v ∈ s.users, v.id = h.edited_by) ∧ ∃ m ∈ s.messages, m.id = h.message)

/-- Whether following the parent chain from the given optional parent
reference reaches a root within the given number of steps. -/
def chainEndsAt (s : State) : Nat → Option Nat → Bool
  | _, none => true
  | 0, some _ => false
  | fuel + 1, some pid =>
    match findMsg s pid with
    | none => true
    | some p => chainEndsAt s fuel p.parent_message

/-- The ids collected along the parent chain from the given optional
parent reference, following at most fuel + 1 links. -/
def ancestorIds (s : State) : Nat → Option Nat → List Nat
  | _, none => []
  | 0, some pid => [pid]
  | fuel + 1, some pid =>
    pid ::
      (match findMsg s pid with
       | none => []
       | some p => ancestorIds s fuel p.parent_message)

/-- The states a database can be in after any sequence of the public
operations, starting from an empty database with an arbitrary user table. -/
inductive Reachable : State → Prop where
  | init (users : List User) : Reachable ⟨users, [], [], [], 0⟩
  | send {s s' : State} (a b : Nat) (c : String) (p : Option Nat) :
      Reachable s → send_message s a b c p = .ok s' → Reachable s'
  | edit {s s' : State} (a mid : Nat) (c : String) :
      Reachable s → edit_message s a mid c = .ok s' → Reachable s'
  | readMsg {s s' : State} (a mid : Nat) :
      Reachable s → mark_message_read s a mid = .ok s' → Reachable s'
  | readNotif {s s' : State} (a nid : Nat) :
      Reachable s → mark_notification_read s a nid = .ok s' → Reachable s'
  | delUser {s : State} (u : Nat) :
      Reachable s → Reachable (delete_user s u)

instance decidableForallOptionEq {α : Type} (o : Option α) (P : α → Prop)
    [∀ a, Decidable (P a)] : Decidable (∀ a, o = some a → P a) :=
  match o with
  | none => isTrue (fun _ h => nomatch h)
  | some b =>
    if h : P b then isTrue (fun a ha => Option.some.inj ha ▸ h)
    else isFalse (fun hall => h (hall b rfl))

instance (ms : List Msg) (b : Nat) : Decidable (MsgListWf ms b) :=
  decidable_of_iff
    (∀ m ∈ ms, m.id < b ∧
      ∀ pid, m.parent_message = some pid → pid < m.id ∧ ∃ p ∈ ms, p.id = pid)
    Iff.rfl

instance (s : State) : Decidable (MsgWf s) :=
  decidable_of_iff (MsgListWf s.messages s.nextId) Iff.rfl

instance (s : State) : Decidable (StateWf s) :=
  decidable_of_iff
    (MsgWf s ∧
      (∀ m ∈ s.messages,
        (∃ v ∈ s.users, v.id = m.sender) ∧ ∃ v ∈ s.users, v.id = m.receiver) ∧
      (∀ n ∈ s.notifications,
        (∃ v ∈ s.users, v.id = n.user) ∧
          ∀ mid, n.message = some mid → ∃ m ∈ s.messages, m.id = mid) ∧
      (∀ h ∈ s.history,
        (∃ v ∈ s.users, v.id = h.edited_by) ∧ ∃ m ∈ s.messages, m.id = h.message))
    Iff.rfl

/-- A two-user database with no rows yet: alice (id 1) and bob (id 2). -/
def demo0 : State := ⟨[⟨1, "alice"⟩, ⟨2, "bob"⟩], [], [], [], 0⟩

/-- demo0 after alice sends "hi" to bob (message id 0). -/
def demo1 : State := doSend demo0 1 2 "hi" none

/-- demo1 after bob replies "re" to message 0 (message id 2). -/
def demo2 : State := doSend demo1 2 1 "re" (some 0)

/-- The message row alice's send created in demo1. -/
def demoMsg0 : Msg := ⟨0, 1, 2, "hi", 0, false, false, none⟩

/-- The reply row bob's send created in demo2. -/
def demoMsg2 : Msg := ⟨2, 2, 1, "re", 2, false, false, some 0⟩

/-- demo1 after bob opened message 0 (read flag set). -/
def demoRead1 : State :=
  { demo1 with
    messages := updateMsg demo1.messages 0 fun x => { x with read := true } }

theorem findMsg_mem {s : State} {mid : Nat} {m : Msg}
    (h : findMsg s mid = some m) : m ∈ s.messages :=
  List.mem_of_find?_eq_some h

theorem findMsg_id {s : State} {mid : Nat} {m : Msg}
    (h : findMsg s mid = some m) : m.id = mid := by
  have := List.find?_some h
  simpa using this

theorem findUser_id {s : State} {uid : Nat} {u : User}
    (h : findUser s uid = some u) : u.id = uid := by
  have := List.find?_some h
  simpa using this

theorem findMsg_of_exists {s : State} {mid : Nat}
    (h : ∃ p ∈ s.messages, p.id = mid) :
    ∃ q, findMsg s mid = some q ∧ q ∈ s.messages ∧ q.id = mid := by
  have hsome : (s.messages.find? (fun m => m.id == mid)).isSome := by
    rw [List.find?_isSome]
    rcases h with ⟨p, hp, hid⟩
    exact ⟨p, hp, by simpa using hid⟩
  rcases Option.isSome_iff_exists.mp hsome with ⟨q, hq⟩
  exact ⟨q, hq, findMsg_mem hq, findMsg_id hq⟩

theorem find?_updateMsg (ms : List Msg) (mid : Nat) (f : Msg → Msg)
    (hf : ∀ x, (f x).id = x.id) :
    (updateMsg ms mid f).find? (fun m => m.id == mid) =
      (ms.find? (fun m => m.id == mid)).map f := by
  induction ms with
  | nil => rfl
  | cons a l ih =>
    by_cases ha : a.id = mid
    · simp [updateMsg, List.find?, ha, hf]
    · have hb : (a.id == mid) = false := by simpa using ha
      simp [updateMsg, List.find?, hb, ha] at ih ⊢
      simpa [updateMsg] using ih

theorem msgDoomed_parent_none (s : State) (u : Nat) (m : Msg)
    (hp : m.parent_message = none) (fuel : Nat) :
    msgDoomed s u fuel m = (m.sender == u || m.receiver == u) := by
  cases fuel with
  | zero => rfl
  | succ f => simp [msgDoomed, hp]

theorem msgDoomed_false_user {s : State} {u : Nat} {m : Msg} {fuel : Nat}
    (h : msgDoomed s u fuel m = false) : m.sender ≠ u ∧ m.receiver ≠ u := by
  cases fuel with
  | zero =>
    simp only [msgDoomed, Bool.or_eq_false_iff] at h
    exact ⟨by simpa using h.1, by simpa using h.2⟩
  | succ f =>
    simp only [msgDoomed, Bool.or_eq_false_iff] at h
    exact ⟨by simpa using h.1.1, by simpa using h.1.2⟩

theorem msgDoomed_stab (s : State) (u : Nat)
    (hwf : ∀ m ∈ s.messages, ∀ pid, m.parent_message = some pid →
      pid < m.id ∧ ∃ p ∈ s.messages, p.id = pid) :
    ∀ n, ∀ m ∈ s.messages, m.id ≤ n → ∀ f g, m.id ≤ f → m.id ≤ g →
      msgDoomed s u f m = msgDoomed s u g m := by
  intro n
  induction n with
  | zero =>
    intro m hm hid f g _ _
    cases hp : m.parent_message with
    | none =>
      rw [msgDoomed_parent_none s u m hp, msgDoomed_parent_none s u m hp]
    | some pid =>
      exact absurd (hwf m hm pid hp).1 (by omega)
  | succ n ih =>
    intro m hm hid f g hf hg
    by_cases hle : m.id ≤ n
    · exact ih m hm hle f g hf hg
    · have hid' : m.id = n + 1 := by omega
      cases hp : m.parent_message with
      | none =>
        rw [msgDoomed_parent_none s u m hp, msgDoomed_parent_none s u m hp]
      | some pid =>
        obtain ⟨hlt, hex⟩ := hwf m hm pid hp
        obtain ⟨q, hq, hqmem, hqid⟩ := findMsg_of_exists hex
        cases f with
        | zero => exact absurd hf (by omega)
        | succ f' =>
          cases g with
          | zero => exact absurd hg (by omega)
          | succ g' =>
            simp only [msgDoomed, hp, hq]
            have hq' : msgDoomed s u f' q = msgDoomed s u g' q :=
              ih q hqmem (by omega) f' g' (by omega) (by omega)
            rw [hq']

theorem delete_user_mem_messages {s : State} {u : Nat} {m : Msg}
    (hm : m ∈ (delete_user s u).messages) :
    m ∈ s.messages ∧ msgDoomed s u s.nextId m = false := by
  have h := List.mem_filter.mp hm
  exact ⟨h.1, by simpa using h.2⟩

theorem delete_user_msg_survives {s : State} {u : Nat} (hwf : MsgWf s)
    {m : Msg} (hm : m ∈ (delete_user s u).messages) :
    ∀ pid, m.parent_message = some pid →
      ∃ p ∈ (delete_user s u).messages, p.id = pid := by
  intro pid hp
  obtain ⟨hmem, hdm⟩ := delete_user_mem_messages hm
  obtain ⟨hbound, hpar⟩ := hwf m hmem
  obtain ⟨hlt, hex⟩ := hpar pid hp
  obtain ⟨q, hq, hqmem, hqid⟩ := findMsg_of_exists hex
  obtain ⟨N', hN⟩ : ∃ N', s.nextId = N' + 1 := ⟨s.nextId - 1, by omega⟩
  have hstep : msgDoomed s u (N' + 1) m = false := by rw [← hN]; exact hdm
  simp only [msgDoomed, hp, hq, Bool.or_eq_false_iff] at hstep
  have hq' : msgDoomed s u N' q = false := hstep.2
  have hstab := msgDoomed_stab s u (fun x hx => (hwf x hx).2) q.id q hqmem
    (Nat.le_refl _) N' s.nextId (by omega) (by omega)
  have hqdead : msgDoomed s u s.nextId q = false := by rw [← hstab]; exact hq'
  refine ⟨q, ?_, hqid⟩
  exact List.mem_filter.mpr ⟨hqmem, by simpa using hqdead⟩

theorem chainEndsAt_of_bound (s : State)
    (hwf : ∀ m ∈ s.messages, ∀ pid, m.parent_message = some pid →
      pid < m.id ∧ ∃ p ∈ s.messages, p.id = pid) :
    ∀ n (opid : Option Nat), (∀ pid, opid = some pid → pid < n) →
      chainEndsAt s n opid = true := by
  intro n
  induction n with
  | zero =>
    intro opid h
    cases opid with
    | none => rfl
    | some pid => exact absurd (h pid rfl) (by omega)
  | succ n ih =>
    intro opid h
    cases opid with
    | none => rfl
    | some pid =>
      cases hq : findMsg s pid with
      | none => simp [chainEndsAt, hq]
      | some p =>
        simp only [chainEndsAt, hq]
        apply ih
        intro pid2 hp2
        have h1 := (hwf p (findMsg_mem hq) pid2 hp2).1
        have h2 := findMsg_id hq
        have h3 := h pid rfl
        omega

theorem ancestorIds_lt (s : State)
    (hwf : ∀ m ∈ s.messages, ∀ pid, m.parent_message = some pid →
      pid < m.id ∧ ∃ p ∈ s.messages, p.id = pid) :
    ∀ fuel (opid : Option Nat) (bound : Nat),
      (∀ pid, opid = some pid → pid < bound) →
      ∀ a ∈ ancestorIds s fuel opid, a < bound := by
  intro fuel
  induction fuel with
  | zero =>
    intro opid bound h a ha
    cases opid with
    | none => simp [ancestorIds] at ha
    | some pid =>
      simp [ancestorIds] at ha
      rw [ha]
      exact h pid rfl
  | succ fuel ih =>
    intro opid bound h a ha
    cases opid with
    | none => simp [ancestorIds] at ha
    | some pid =>
      simp only [ancestorIds] at ha
      rcases List.mem_cons.mp ha with rfl | hrest
      · exact h a rfl
      · cases hq : findMsg s pid with
        | none => rw [hq] at hrest; simp at hrest
        | some p =>
          rw [hq] at hrest
          refine ih p.parent_message bound ?_ a hrest
          intro pid2 hp2
          have h1 := (hwf p (findMsg_mem hq) pid2 hp2).1
          have h2 := findMsg_id hq
          have h3 := h pid rfl
          omega

theorem msgListWf_cons {ms : List Msg} {b : Nat} (h : MsgListWf ms b)
    {newm : Msg} (hid : newm.id = b)
    (hpar : ∀ pid, newm.parent_message = some pid → ∃ p ∈ ms, p.id = pid)
    {b' : Nat} (hb : b + 1 ≤ b') : MsgListWf (newm :: ms) b' := by
  intro m hm
  rcases List.mem_cons.mp hm with rfl | hmem
  · refine ⟨by omega, fun pid hp => ?_⟩
    obtain ⟨p, hpmem, hpid⟩ := hpar pid hp
    have := (h p hpmem).1
    exact ⟨by omega, p, List.mem_cons_of_mem _ hpmem, hpid⟩
  · obtain ⟨h1, h2⟩ := h m hmem
    refine ⟨by omega, fun pid hp => ?_⟩
    obtain ⟨hlt, p, hpmem, hpid⟩ := h2 pid hp
    exact ⟨hlt, p, List.mem_cons_of_mem _ hpmem, hpid⟩

theorem msgListWf_update {ms : List Msg} {b : Nat} (h : MsgListWf ms b)
    (mid : Nat) (f : Msg → Msg) (hfid : ∀ x, (f x).id = x.id)
    (hfpar : ∀ x, (f x).parent_message = x.parent_message)
    {b' : Nat} (hb : b ≤ b') : MsgListWf (updateMsg ms mid f) b' := by
  intro m hm
  obtain ⟨y, hy, hmy⟩ := List.mem_map.mp hm
  have hid : m.id = y.id := by
    rw [← hmy]
    by_cases hc : (y.id == mid) = true
    · simp [hc, hfid]
    · simp [hc]
  have hpar : m.parent_message = y.parent_message := by
    rw [← hmy]
    by_cases hc : (y.id == mid) = true
    · simp [hc, hfpar]
    · simp [hc]
  obtain ⟨h1, h2⟩ := h y hy
  refine ⟨by omega, fun pid hp => ?_⟩
  rw [hpar] at hp
  obtain ⟨hlt, p, hpmem, hpid⟩ := h2 pid hp
  refine ⟨by omega, ?_⟩
  refine ⟨if p.id == mid then f p else p, List.mem_map.mpr ⟨p, hpmem, rfl⟩, ?_⟩
  have hkey : (if (p.id == mid) = true then f p else p).id = p.id := by
    by_cases hc : (p.id == mid) = true
    · simp [hc, hfid]
    · simp [hc]
  exact hkey.trans hpid

theorem msgWf_doSend {s : State} (h : MsgWf s) (a b : Nat) (c : String)
    (parent : Option Nat)
    (hpar : ∀ pid, parent = some pid → ∃ p ∈ s.messages, p.id = pid) :
    MsgWf (doSend s a b c parent) := by
  show MsgListWf (_ :: s.messages) (s.nextId + 1 + 1)
  exact msgListWf_cons h rfl hpar (by omega)

theorem msgWf_saveMessage {s : State} (h : MsgWf s) (mid : Nat) (c : String) :
    MsgWf (saveMessage s mid c) := by
  unfold saveMessage
  split
  · exact h
  · split
    · show MsgListWf
        (updateMsg s.messages mid fun m => { m with content := c, edited := true })
        (s.nextId + 2)
      exact msgListWf_update h mid
        (fun m => { m with content := c, edited := true })
        (fun _ => rfl) (fun _ => rfl) (Nat.le_add_right s.nextId 2)
    · exact h

theorem msgWf_delete_user {s : State} (h : MsgWf s) (u : Nat) :
    MsgWf (delete_user s u) := by
  intro m hm
  obtain ⟨hmem, _⟩ := delete_user_mem_messages hm
  obtain ⟨h1, h2⟩ := h m hmem
  exact ⟨h1, fun pid hp => ⟨(h2 pid hp).1, delete_user_msg_survives h hm pid hp⟩⟩

theorem send_message_ok {s : State} {a b : Nat} {c : String} {p : Option Nat}
    {s' : State} (h : send_message s a b c p = .ok s') :
    c ≠ "" ∧ ∃ r, findUser s b = some r ∧ r.id = b ∧
      ((p = none ∧ s' = doSend s a b c none) ∨
        ∃ pid parent, p = some pid ∧ findMsg s pid = some parent ∧
          parent.id = pid ∧ s' = doSend s a b c (some pid)) := by
  unfold send_message at h
  split at h
  · exact absurd h (by simp)
  next hc =>
    split at h
    · exact absurd h (by simp)
    next r hu =>
      have hrid : r.id = b := findUser_id hu
      refine ⟨hc, r, hu, hrid, ?_⟩
      split at h
      · left
        rw [hrid] at h
        exact ⟨rfl, (Except.ok.inj h).symm⟩
      next pid =>
        right
        split at h
        · exact absurd h (by simp)
        next parent hm =>
          have hpid : parent.id = pid := findMsg_id hm
          rw [hrid, hpid] at h
          exact ⟨pid, parent, rfl, hm, hpid, (Except.ok.inj h).symm⟩

theorem edit_message_ok {s : State} {actor mid : Nat} {c : String} {s' : State}
    (h : edit_message s actor mid c = .ok s') :
    ∃ m, findMsg s mid = some m ∧ m.sender = actor ∧
      (s' = s ∨ s' = saveMessage s mid c) := by
  unfold edit_message at h
  split at h
  · exact absurd h (by simp)
  next m hm =>
    split at h
    · exact absurd h (by simp)
    next hs =>
      refine ⟨m, hm, by omega, ?_⟩
      split at h
      · exact Or.inl (Except.ok.inj h).symm
      · exact Or.inr (Except.ok.inj h).symm

theorem mark_message_read_ok {s : State} {actor mid : Nat} {s' : State}
    (h : mark_message_read s actor mid = .ok s') :
    s' = s ∨ ∃ m, findMsg s mid = some m ∧
      s' = { s with
             messages := updateMsg s.messages mid fun x => { x with read := true } } := by
  unfold mark_message_read at h
  split at h
  · exact absurd h (by simp)
  next m hm =>
    split at h
    · exact absurd h (by simp)
    · split at h
      · exact Or.inr ⟨m, hm, (Except.ok.inj h).symm⟩
      · exact Or.inl (Except.ok.inj h).symm

theorem mark_notification_read_ok {s : State} {actor nid : Nat} {s' : State}
    (h : mark_notification_read s actor nid = .ok s') :
    s'.messages = s.messages ∧ s'.nextId = s.nextId := by
  unfold mark_notification_read at h
  split at h
  · exact absurd h (by simp)
  · rw [(Except.ok.inj h).symm]
    exact ⟨rfl, rfl⟩

theorem reachable_msgWf {s : State} (h : Reachable s) : MsgWf s := by
  induction h with
  | init users => intro m hm; exact absurd hm (List.not_mem_nil m)
  | send a b c p _ heq ih =>
    obtain ⟨-, r, -, -, hcase⟩ := send_message_ok heq
    rcases hcase with ⟨-, rfl⟩ | ⟨pid, parent, -, hm, hpid, rfl⟩
    · exact msgWf_doSend ih a b c none (fun pid hp => nomatch hp)
    · refine msgWf_doSend ih a b c (some pid) (fun pid2 hp => ?_)
      cases hp
      exact ⟨parent, findMsg_mem hm, hpid⟩
  | edit a mid c _ heq ih =>
    obtain ⟨m, -, -, hcase⟩ := edit_message_ok heq
    rcases hcase with rfl | rfl
    · exact ih
    · exact msgWf_saveMessage ih mid c
  | readMsg a mid _ heq ih =>
    rcases mark_message_read_ok heq with rfl | ⟨m, -, rfl⟩
    · exact ih
    · exact msgListWf_update ih mid (fun x => { x with read := true })
        (fun _ => rfl) (fun _ => rfl) (Nat.le_refl _)
  | readNotif a nid _ heq ih =>
    obtain ⟨h1, h2⟩ := mark_notification_read_ok heq
    intro m hm
    rw [h1] at hm
    obtain ⟨g1, g2⟩ := ih m hm
    rw [h2]
    exact ⟨g1, fun pid hp => ⟨(g2 pid hp).1, by rw [h1]; exact (g2 pid hp).2⟩⟩
  | delUser u _ ih => exact msgWf_delete_user ih u

/-- C1: for every existing message, an edit that sets a body different
from the current body creates exactly one MessageHistory row (the claim's
AuditEntry) whose old_content is the prior body verbatim, sets the edited
flag of the message, and creates exactly one Notification of kind "edit"
(notification_type "edit") targeting the receiver. -/
theorem edit_changed_audit_and_notification (s : State) (mid : Nat)
    (newContent : String) (m : Msg) (hm : findMsg s mid = some m)
    (hne : newContent ≠ m.content) :
    (saveMessage s mid newContent).history =
      { id := s.nextId, message := mid, old_content := m.content,
        edited_at := s.nextId, edited_by := m.sender } :: s.history ∧
    (saveMessage s mid newContent).notifications =
      { id := s.nextId + 1, user := m.receiver, message := some mid,
        notification_type := "edit",
        content := usernameOf s m.sender ++ " edited their message",
        timestamp := s.nextId + 1, read := false } :: s.notifications ∧
    findMsg (saveMessage s mid newContent) mid =
      some { m with content := newContent, edited := true } := by
  have hne' : m.content ≠ newContent := fun h => hne h.symm
  have hsave : saveMessage s mid newContent =
      { s with
        history := { id := s.nextId, message := mid, old_content := m.content,
                     edited_at := s.nextId, edited_by := m.sender } :: s.history
        notifications := { id := s.nextId + 1, user := m.receiver,
                           message := some mid, notification_type := "edit",
                           content := usernameOf s m.sender ++ " edited their message",
                           timestamp := s.nextId + 1, read := false } :: s.notifications
        nextId := s.nextId + 2
        messages := updateMsg s.messages mid
          (fun x => { x with content := newContent, edited := true }) } := by
    unfold saveMessage
    simp only [hm, if_pos hne']
  refine ⟨by rw [hsave], by rw [hsave], ?_⟩
  rw [hsave]
  show (updateMsg s.messages mid
      (fun x => { x with content := newContent, edited := true })).find?
      (fun x => x.id == mid) = _
  rw [find?_updateMsg s.messages mid
    (fun x => { x with content := newContent, edited := true }) (fun _ => rfl)]
  show (findMsg s mid).map _ = _
  rw [hm]
  rfl

theorem c1_witness : (saveMessage demo1 0 "hello").history =
    [{ id := 2, message := 0, old_content := "hi", edited_at := 2,
       edited_by := 1 }] := by
  have h := edit_changed_audit_and_notification demo1 0 "hello" demoMsg0 rfl
    (by decide)
  rw [h.1]
  rfl

/-- C2: for every existing message, an edit whose new body equals the
current body is a complete no-op: the resulting state is the old state, so
no MessageHistory row, no Notification, and an unchanged edited flag. -/
theorem edit_unchanged_noop (s : State) (mid : Nat) (m : Msg)
    (hm : findMsg s mid = some m) :
    saveMessage s mid m.content = s := by
  unfold saveMessage
  simp [hm]

theorem c2_witness : saveMessage demo1 0 "hi" = demo1 :=
  edit_unchanged_noop demo1 0 demoMsg0 rfl

/-- C6: every MessageHistory row an edit creates records the message's
sender as edited_by, whatever actor performed the save: the pre_save
signal receives no actor at all and always writes instance.sender. -/
theorem audit_editor_is_sender (s : State) (mid : Nat) (c : String) (m : Msg)
    (hm : findMsg s mid = some m) :
    ∀ e ∈ (saveMessage s mid c).history, e ∈ s.history ∨ e.edited_by = m.sender := by
  intro e he
  unfold saveMessage at he
  split at he
  · exact Or.inl he
  next old heq =>
    have hold : old = m := by
      rw [hm] at heq
      exact (Option.some.inj heq).symm
    split at he
    · rcases List.mem_cons.mp he with rfl | hmem
      · exact Or.inr (by rw [hold])
      · exact Or.inl hmem
    · exact Or.inl he

theorem c6_witness :
    ({ id := 2, message := 0, old_content := "hi", edited_at := 2,
       edited_by := 1 } : Hist) ∈ demo1.history ∨
    ({ id := 2, message := 0, old_content := "hi", edited_at := 2,
       edited_by := 1 } : Hist).edited_by = demoMsg0.sender :=
  audit_editor_is_sender demo1 0 "hello" demoMsg0 rfl _ (by decide)

/-- C4: every successful message creation inserts exactly one message row
and emits exactly one Notification to the receiver, of kind "reply" when
the message has a parent and of kind "message" (the spec's new-message)
otherwise, with content derived from the sender's username; the audit
trail is untouched. -/
theorem send_emits_one_notification (s : State) (a b : Nat) (c : String)
    (p : Option Nat) (s' : State) (h : send_message s a b c p = .ok s') :
    s'.messages =
      { id := s.nextId, sender := a, receiver := b, content := c,
        timestamp := s.nextId, edited := false, read := false,
        parent_message := p } :: s.messages ∧
    s'.notifications =
      { id := s.nextId + 1, user := b, message := some s.nextId,
        notification_type := if p.isSome then "reply" else "message",
        content := "You have a new " ++ (if p.isSome then "reply" else "message") ++
          " from " ++ usernameOf s a,
        timestamp := s.nextId + 1, read := false } :: s.notifications ∧
    s'.history = s.history := by
  obtain ⟨hc, r, hu, hrid, hcase⟩ := send_message_ok h
  rcases hcase with ⟨rfl, rfl⟩ | ⟨pid, parent, rfl, hmp, hpid, rfl⟩
  · exact ⟨rfl, rfl, rfl⟩
  · exact ⟨rfl, rfl, rfl⟩

theorem c4_witness : demo1.notifications =
    [{ id := 1, user := 2, message := some 0, notification_type := "message",
       content := "You have a new message from alice", timestamp := 1,
       read := false }] := by
  have h := send_emits_one_notification demo0 1 2 "hi" none demo1 rfl
  rw [h.2.1]
  rfl

/-- C7 counterexample: in demo1 notification 1 exists and targets bob
(user 2), yet when alice (user 1) tries to mark it read the view answers
Http404 (the owner filter is part of the get_object_or_404 lookup), not
Forbidden as the claim states. -/
theorem notification_mark_read_forbidden_cex :
    (∃ n ∈ demo1.notifications, n.id = 1 ∧ n.user ≠ 1) ∧
    mark_notification_read demo1 1 1 ≠ Except.error Err.forbidden ∧
    mark_notification_read demo1 1 1 = Except.error Err.notFound := by
  have heq : mark_notification_read demo1 1 1 = Except.error Err.notFound := rfl
  refine ⟨by decide, ?_, heq⟩
  rw [heq]
  intro hcontra
  exact absurd (Except.error.inj hcontra) (by decide)

/-- C7 amended: marking a notification as read fails, with NotFound rather
than Forbidden, whenever the acting user is not the notification's target
(the ownership filter is folded into the lookup, hiding the row's
existence); the error branch returns no state, so nothing changes. -/
theorem notification_mark_read_wrong_user (s : State) (actor nid : Nat)
    (h : ∀ n ∈ s.notifications, n.id = nid → n.user ≠ actor) :
    mark_notification_read s actor nid = .error .notFound := by
  unfold mark_notification_read
  have hnone : s.notifications.find? (fun n => n.id == nid && n.user == actor) = none := by
    rw [List.find?_eq_none]
    intro n hn hcond
    rw [Bool.and_eq_true] at hcond
    have h1 : n.id = nid := by simpa using hcond.1
    have h2 : n.user = actor := by simpa using hcond.2
    exact h n hn h1 h2
  rw [hnone]

theorem c7_witness : mark_notification_read demo1 1 1 = .error .notFound :=
  notification_mark_read_wrong_user demo1 1 1 (by decide)

/-- C8: for every existing message whose reader is the receiver, marking
it read succeeds, leaves read=true, and is idempotent: the second call
returns exactly the state of the first, so it has no further side effects
(notifications, history and users are untouched throughout). -/
theorem mark_read_idempotent (s : State) (actor mid : Nat) (m : Msg)
    (hm : findMsg s mid = some m) (hr : m.receiver = actor) :
    ∃ s₁, mark_message_read s actor mid = .ok s₁ ∧
      mark_message_read s₁ actor mid = .ok s₁ ∧
      findMsg s₁ mid = some { m with read := true } ∧
      s₁.notifications = s.notifications ∧ s₁.history = s.history ∧
      s₁.users = s.users := by
  have hforb : ¬(m.sender ≠ actor ∧ m.receiver ≠ actor) := by
    intro hcon
    exact hcon.2 hr
  cases hread : m.read with
  | true =>
    refine ⟨s, ?_, ?_, ?_, rfl, rfl, rfl⟩
    · unfold mark_message_read
      rw [hm]
      simp [hforb, hread]
    · unfold mark_message_read
      rw [hm]
      simp [hforb, hread]
    · rw [hm]
      obtain ⟨i, sd, rc, ct, ts, ed, rd, pm⟩ := m
      simp only at hread
      rw [hread]
  | false =>
    refine ⟨{ s with messages := updateMsg s.messages mid fun x => { x with read := true } },
      ?_, ?_, ?_, rfl, rfl, rfl⟩
    · unfold mark_message_read
      rw [hm]
      simp [hforb, hr, hread]
    · have hm1 : findMsg { s with
          messages := updateMsg s.messages mid fun x => { x with read := true } } mid =
          some { m with read := true } := by
        show (updateMsg s.messages mid fun x => { x with read := true }).find?
          (fun x => x.id == mid) = _
        rw [find?_updateMsg s.messages mid (fun x => { x with read := true })
          (fun _ => rfl)]
        show (findMsg s mid).map _ = _
        rw [hm]
        rfl
      unfold mark_message_read
      rw [hm1]
      simp [hr]
    · show (updateMsg s.messages mid fun x => { x with read := true }).find?
        (fun x => x.id == mid) = _
      rw [find?_updateMsg s.messages mid (fun x => { x with read := true })
        (fun _ => rfl)]
      show (findMsg s mid).map _ = _
      rw [hm]
      rfl

theorem c8_witness : mark_message_read demoRead1 2 0 = .ok demoRead1 := by
  obtain ⟨s₁, h1, h2, -, -, -, -⟩ := mark_read_idempotent demo1 2 0 demoMsg0 rfl rfl
  have h1' : mark_message_read demo1 2 0 = .ok demoRead1 := rfl
  rw [h1] at h1'
  rw [← Except.ok.inj h1']
  exact h2

theorem reachable_demo1 : Reachable demo1 :=
  Reachable.send 1 2 "hi" none (Reachable.init [⟨1, "alice"⟩, ⟨2, "bob"⟩]) rfl

theorem reachable_demo2 : Reachable demo2 :=
  Reachable.send 2 1 "re" (some 0) reachable_demo1 rfl

/-- C5: in every state reachable through the public operations, a message
with a parent reference points at an existing message other than itself,
the parent chain terminates within nextId steps, and the message never
appears among its own ancestors. -/
theorem reachable_parent_chain (s : State) (hs : Reachable s) (m : Msg)
    (hm : m ∈ s.messages) (pid : Nat) (hp : m.parent_message = some pid) :
    (∃ p ∈ s.messages, p.id = pid) ∧ pid ≠ m.id ∧
    chainEndsAt s s.nextId m.parent_message = true ∧
    m.id ∉ ancestorIds s s.nextId m.parent_message := by
  have hwf := reachable_msgWf hs
  obtain ⟨hbound, hpar⟩ := hwf m hm
  obtain ⟨hlt, hex⟩ := hpar pid hp
  refine ⟨hex, by omega, ?_, ?_⟩
  · refine chainEndsAt_of_bound s (fun x hx => (hwf x hx).2) s.nextId
      m.parent_message ?_
    intro pid2 hp2
    rw [hp] at hp2
    cases Option.some.inj hp2
    omega
  · intro hmem
    have hall := ancestorIds_lt s (fun x hx => (hwf x hx).2) s.nextId
      m.parent_message m.id ?_ m.id hmem
    · omega
    · intro pid2 hp2
      rw [hp] at hp2
      cases Option.some.inj hp2
      omega

theorem c5_witness : chainEndsAt demo2 demo2.nextId (some 0) = true ∧
    (2 : Nat) ∉ ancestorIds demo2 demo2.nextId (some 0) := by
  have h := reachable_parent_chain demo2 reachable_demo2 demoMsg2 (by decide) 0 rfl
  exact ⟨h.2.2.1, h.2.2.2⟩

/-- C3: after deleting user u from a healthy state, no surviving user is u,
no surviving message has u as sender or receiver, no surviving
notification targets u, no surviving history row was edited by u, and no
surviving row references a deleted row: message parents, notification
message references, history message references and all user references
resolve among the survivors. -/
theorem delete_user_no_dangling (s : State) (u : Nat) (hwf : StateWf s) :
    (∀ v ∈ (delete_user s u).users, v.id ≠ u) ∧
    (∀ m ∈ (delete_user s u).messages,
      m.sender ≠ u ∧ m.receiver ≠ u ∧
      (∃ v ∈ (delete_user s u).users, v.id = m.sender) ∧
      (∃ v ∈ (delete_user s u).users, v.id = m.receiver) ∧
      ∀ pid, m.parent_message = some pid →
        ∃ p ∈ (delete_user s u).messages, p.id = pid) ∧
    (∀ n ∈ (delete_user s u).notifications,
      n.user ≠ u ∧ (∃ v ∈ (delete_user s u).users, v.id = n.user) ∧
      ∀ mid, n.message = some mid →
        ∃ mm ∈ (delete_user s u).messages, mm.id = mid) ∧
    (∀ e ∈ (delete_user s u).history,
      e.edited_by ≠ u ∧ (∃ v ∈ (delete_user s u).users, v.id = e.edited_by) ∧
      ∃ mm ∈ (delete_user s u).messages, mm.id = e.message) := by
  obtain ⟨hmwf, husers, hnotif, hhist⟩ := hwf
  have huser_surv : ∀ v ∈ s.users, v.id ≠ u → v ∈ (delete_user s u).users := by
    intro v hv hne
    exact List.mem_filter.mpr ⟨hv, by simpa using hne⟩
  have hmsg_surv : ∀ mm ∈ s.messages, msgDoomed s u s.nextId mm = false →
      mm ∈ (delete_user s u).messages := by
    intro mm hmm hdm
    exact List.mem_filter.mpr ⟨hmm, by simpa using hdm⟩
  refine ⟨?_, ?_, ?_, ?_⟩
  · intro v hv
    have := (List.mem_filter.mp hv).2
    simpa using this
  · intro m hm
    obtain ⟨hmem, hdm⟩ := delete_user_mem_messages hm
    obtain ⟨hsne, hrne⟩ := msgDoomed_false_user hdm
    obtain ⟨⟨vs, hvs, hvs2⟩, ⟨vr, hvr, hvr2⟩⟩ := husers m hmem
    refine ⟨hsne, hrne, ⟨vs, huser_surv vs hvs (by omega), hvs2⟩,
      ⟨vr, huser_surv vr hvr (by omega), hvr2⟩, ?_⟩
    exact delete_user_msg_survives hmwf hm
  · intro n hn
    have hn' := List.mem_filter.mp hn
    obtain ⟨hnmem, hcond⟩ := hn'
    rw [Bool.and_eq_true] at hcond
    have hune : n.user ≠ u := by simpa using hcond.1
    obtain ⟨⟨vu, hvu, hvu2⟩, hmsgref⟩ := hnotif n hnmem
    refine ⟨hune, ⟨vu, huser_surv vu hvu (by omega), hvu2⟩, ?_⟩
    intro mid hmid
    obtain ⟨q, hq, hqmem, hqid⟩ := findMsg_of_exists (hmsgref mid hmid)
    have hcond2 := hcond.2
    simp only [hmid, hq] at hcond2
    have hqdead : msgDoomed s u s.nextId q = false := by simpa using hcond2
    exact ⟨q, hmsg_surv q hqmem hqdead, hqid⟩
  · intro e he
    have he' := List.mem_filter.mp he
    obtain ⟨hemem, hcond⟩ := he'
    rw [Bool.and_eq_true] at hcond
    have hene : e.edited_by ≠ u := by simpa using hcond.1
    obtain ⟨⟨vu, hvu, hvu2⟩, hmsgref⟩ := hhist e hemem
    refine ⟨hene, ⟨vu, huser_surv vu hvu (by omega), hvu2⟩, ?_⟩
    obtain ⟨q, hq, hqmem, hqid⟩ := findMsg_of_exists hmsgref
    have hcond2 := hcond.2
    simp only [hq] at hcond2
    have hqdead : msgDoomed s u s.nextId q = false := by simpa using hcond2
    exact ⟨q, hmsg_surv q hqmem hqdead, hqid⟩

theorem c3_witness : (⟨2, "bob"⟩ : User).id ≠ 1 :=
  (delete_user_no_dangling demo2 1 (by decide)).1 ⟨2, "bob"⟩ (by decide)

/-- C9: get_thread on a message returns exactly the direct replies (the
messages whose parent_message is the given message), each carrying its
eagerly resolved sender and receiver rows, ordered newest first (the
model ordering -timestamp). -/
theorem thread_exact_and_ordered (s : State) (m : Msg) :
    (∀ e : ResolvedMsg, e ∈ get_thread s m ↔
      (e.msg ∈ s.messages ∧ e.msg.parent_message = some m.id ∧
        e.senderUser = findUser s e.msg.sender ∧
        e.receiverUser = findUser s e.msg.receiver)) ∧
    List.Pairwise (fun a b : ResolvedMsg => b.msg.timestamp ≤ a.msg.timestamp)
      (get_thread s m) := by
  constructor
  · intro e
    unfold get_thread
    rw [List.mem_map]
    constructor
    · rintro ⟨r, hr, rfl⟩
      have hr' : r ∈ s.messages.filter (fun x => x.parent_message == some m.id) :=
        (List.perm_insertionSort tsGe _).mem_iff.mp hr
      obtain ⟨hmem, hcond⟩ := List.mem_filter.mp hr'
      exact ⟨hmem, by simpa using hcond, rfl, rfl⟩
    · rintro ⟨hmem, hpar, hs, hrv⟩
      refine ⟨e.msg, ?_, ?_⟩
      · exact (List.perm_insertionSort tsGe _).mem_iff.mpr
          (List.mem_filter.mpr ⟨hmem, by simp [hpar]⟩)
      · obtain ⟨emsg, esu, eru⟩ := e
        simp only at hs hrv
        rw [hs, hrv]
  · have hsorted := List.sorted_insertionSort tsGe
      (s.messages.filter (fun x => x.parent_message == some m.id))
    exact List.Pairwise.map _ (fun a b h => h) hsorted

/-- C10: the inbox view never reports an unread count: its manager
attribute lookup Message.unread fails, because models.py installs the
custom manager only under unread_objects (the repository's own tests call
Message.unread_objects), so the view raises AttributeError on every
request.  Evaluated at bob's inbox in demo1: the view errors even though
the intended accessor unread_for_user would have returned exactly the one
unread message, whose receiver is bob and whose read flag is false. -/
theorem inbox_attribute_error :
    inbox demo1 2 = .error .attributeError ∧
    messageManagerLookup "unread" = none ∧
    unread_for_user demo1 2 = [demoMsg0] ∧
    demoMsg0.receiver = 2 ∧ demoMsg0.read = false :=
  ⟨rfl, rfl, rfl, rfl, rfl⟩

end Messaging
